import Mathlib

/-!
Shallow embedding of the `locate` command of `fakit` (`fakit/cmd/locate.go`):
the concurrent chunk-processing pipeline with ordered result reassembly.

The embedding covers:
* the receiver goroutine (reorder buffer) of `locateCmd`, lines 133-214,
  as a fold of a step function over the arrival sequence of result chunks,
  followed by the final sorted drain (`sortLocationChunkMapID`);
* the worker goroutine, lines 227-257, parameterised by the opaque matcher
  (`regexp.FindAllSubmatchIndex`, an external capability);
* the output formatting performed at flush time, lines 138-154
  (repeated verbatim at lines 160-176 and 192-209);
* the pattern-preparation block, lines 76-120.

The Go map `chunks : map[uint64]LocationChunk` is modelled as an
association list with Go's overwrite-on-insert semantics; chunk payloads
are kept generic in `α` where only sequence numbers matter.
-/

namespace Locate

/-- State of the receiver goroutine (locate.go lines 133-214): `id` is the
next expected chunk ID (`var id uint64 = 0`), `chunks` the buffered map from
chunk ID to chunk, `out` the trace of chunks flushed so far. -/
structure RecvState (α : Type) where
  id : Nat
  chunks : List (Nat × α)
  out : List (Nat × α)
deriving DecidableEq

/-- Go map deletion `delete(m, k)` on the association-list model. -/
def eraseKey {α : Type} (k : Nat) (l : List (Nat × α)) : List (Nat × α) :=
  l.eraseP (fun e => e.1 == k)

/-- Go map insertion `m[k] = v` (overwrite) on the association-list model. -/
def insertKey {α : Type} (k : Nat) (v : α) (l : List (Nat × α)) : List (Nat × α) :=
  (k, v) :: eraseKey k l

/-- Fuelled form of the receiver's cascade loop; each successful iteration
deletes one binding from the buffered map, so the map size bounds the
iteration count and the fuel never runs out when it starts at the map
size (when the fuel is exhausted the map is empty and the lookup of the
unbounded loop would fail as well). -/
def cascadeFlushAux {α : Type} : Nat → Nat → List (Nat × α) → List (Nat × α) →
    Nat × List (Nat × α) × List (Nat × α)
  | 0, i, cs, out => (i, cs, out)
  | fuel + 1, i, cs, out =>
    match cs.lookup i with
    | some v => cascadeFlushAux fuel (i + 1) (eraseKey i cs) (out ++ [(i, v)])
    | none => (i, cs, out)

/-- The `for true { ... }` cascade loop of the receiver's mismatch branch
(locate.go lines 158-183): while the buffered map holds the next expected
ID, flush that chunk, advance the expected ID, and delete the binding. -/
def cascadeFlush {α : Type} (i : Nat) (cs : List (Nat × α)) (out : List (Nat × α)) :
    Nat × List (Nat × α) × List (Nat × α) :=
  cascadeFlushAux cs.length i cs out

/-- One iteration of the receiver's `for chunk := range ch` loop
(locate.go lines 136-185): an exact match of the expected ID is flushed
and the expected ID incremented; otherwise the buffered cascade runs and
the arriving chunk is then inserted into the buffer. -/
def recvStep {α : Type} (st : RecvState α) (c : Nat × α) : RecvState α :=
  if c.1 = st.id then
    ⟨st.id + 1, st.chunks, st.out ++ [c]⟩
  else
    let r := cascadeFlush st.id st.chunks st.out
    ⟨r.1, insertKey c.1 c.2 r.2.1, r.2.2⟩

/-- Initial receiver state: `id = 0`, empty buffer, nothing flushed. -/
def recvInit {α : Type} : RecvState α := ⟨0, [], []⟩

/-- `sortLocationChunkMapID` (locate.go lines 280-289): collect the keys of
the buffered map and sort them ascending. -/
def sortLocationChunkMapID {α : Type} (cs : List (Nat × α)) : List Nat :=
  List.insertionSort (· ≤ ·) (cs.map Prod.fst)

/-- The final drain (locate.go lines 188-211): after the results channel
closes, flush every still-buffered chunk in ascending ID order. -/
def drainState {α : Type} (st : RecvState α) : List (Nat × α) :=
  st.out ++ (sortLocationChunkMapID st.chunks).filterMap
    (fun k => (st.chunks.lookup k).map (fun v => (k, v)))

/-- The complete receiver run: fold the reception loop over the arrival
sequence of result chunks, then drain. Returns the full flush trace. -/
def receiverRun {α : Type} (arr : List (Nat × α)) : List (Nat × α) :=
  drainState (arr.foldl recvStep recvInit)

/-- Verification predicate for the receiver: after the arrivals whose
sequence numbers are `seen` have been processed, the flush trace is
exactly `0, 1, ..., id-1` in order, the buffered keys are distinct and
at least `id`, and `seen` splits into the flushed IDs plus the buffered
keys. -/
def RecvInv {α : Type} (st : RecvState α) (seen : List Nat) : Prop :=
  st.out.map Prod.fst = List.range st.id ∧
  (st.chunks.map Prod.fst).Nodup ∧
  (∀ k ∈ st.chunks.map Prod.fst, st.id ≤ k) ∧
  seen.Perm (List.range st.id ++ st.chunks.map Prod.fst)

/-- A fasta record as the worker sees it (`fasta.FastaRecord`): a stable
identifier and the forward sequence buffer `Record.Seq.Seq`. -/
structure FastaRecord where
  id : String
  seq : List Char
deriving DecidableEq

/-- Modelled from the spec: the base-complement table behind the record
abstraction's reverse-complement capability (`seq.RevCom`, supplied by the
external `bio/seq` package). Watson-Crick pairing on the DNA alphabet,
case preserved, other bytes unchanged. -/
def complementBase (c : Char) : Char :=
  if c = 'A' then 'T' else if c = 'T' then 'A'
  else if c = 'C' then 'G' else if c = 'G' then 'C'
  else if c = 'a' then 't' else if c = 't' then 'a'
  else if c = 'c' then 'g' else if c = 'g' then 'c'
  else c

/-- Modelled from the spec: `Record.Seq.RevCom()`, the reverse complement of
a sequence buffer — an external capability of the record abstraction
(glossary: reverse-complement orientation), i.e. the reverse of the
base-wise complement. -/
def revcom (s : List Char) : List Char :=
  (s.map complementBase).reverse

/-- Go slice `s[a:b]` on a list: elements at zero-based offsets `[a, b)`. -/
def goSlice (s : List Char) (a b : Nat) : List Char :=
  (s.take b).drop a

/-- Modelled from the spec: `Record.Seq.SubSeq(start, end)`, the external
record abstraction's subsequence capability with 1-based inclusive
coordinates, so `SubSeq(a+1, b)` is the zero-based half-open slice `[a, b)`. -/
def subSeq (s : List Char) (start stop : Nat) : List Char :=
  (s.take stop).drop (start - 1)

/-- `LocationInfo` (locate.go lines 273-278): one per (record, pattern,
strand) with a non-empty match list; `locations` are the zero-based
half-open spans (`loc[0]`, `loc[1]`) in forward coordinates. -/
structure LocationInfo where
  record : FastaRecord
  patternName : String
  strand : Int
  locations : List (Nat × Nat)
deriving DecidableEq

/-- One iteration of the worker's inner `for pName, re := range regexps`
loop body (locate.go lines 235-254), parameterised by the opaque matcher
`find` standing for `regexps[pName].FindAllSubmatchIndex` (only `loc[0]`
and `loc[1]` of each hit are consumed). Forward hits are appended with
strand `1`; unless only-positive-strand is set, hits against the reverse
complement are translated via `l - loc[1], l - loc[0]` and appended with
strand `-1`. -/
def workerStep (find : String → List Char → List (Nat × Nat)) (onlyPositiveStrand : Bool)
    (record : FastaRecord) (acc : List LocationInfo) (pName : String) : List LocationInfo :=
  let found := find pName record.seq
  let acc1 := if found.length > 0 then acc ++ [⟨record, pName, 1, found⟩] else acc
  if onlyPositiveStrand then acc1
  else
    let seqRP := revcom record.seq
    let found2 := find pName seqRP
    if found2.length > 0 then
      let l := seqRP.length
      acc1 ++ [⟨record, pName, -1, found2.map (fun loc => (l - loc.2, l - loc.1))⟩]
    else acc1

/-- The `LocationInfo` entries one (record, pattern) pair contributes, in
the order the worker appends them: the forward-strand entry (when the
forward search hits) followed by the reverse-strand entry (when both
strands are searched and the reverse search hits). -/
def patBlock (find : String → List Char → List (Nat × Nat)) (onlyPositiveStrand : Bool)
    (record : FastaRecord) (pName : String) : List LocationInfo :=
  (if (find pName record.seq).length > 0 then
    [⟨record, pName, 1, find pName record.seq⟩] else []) ++
  (if onlyPositiveStrand then []
   else if (find pName (revcom record.seq)).length > 0 then
    [⟨record, pName, -1, (find pName (revcom record.seq)).map
      (fun loc => ((revcom record.seq).length - loc.2, (revcom record.seq).length - loc.1))⟩]
   else [])

/-- The worker goroutine's collection loop (locate.go lines 233-255): the
`locations` slice accumulated over every record of the chunk and every
pattern, in pattern-iteration order `pats`. -/
def workerLocations (find : String → List Char → List (Nat × Nat)) (pats : List String)
    (onlyPositiveStrand : Bool) (records : List FastaRecord) : List LocationInfo :=
  records.foldl (fun acc record => pats.foldl (workerStep find onlyPositiveStrand record) acc) []

/-- One printed output row (locate.go lines 146-153):
`seqID, patternName, pattern, strand, loc[0]+1, loc[1], matched`. -/
structure OutRow where
  seqID : String
  patternName : String
  patternRaw : String
  strand : Int
  start : Nat
  endPos : Nat
  matched : List Char
deriving DecidableEq

/-- The rows printed when one `LocationInfo` is flushed (locate.go lines
138-154, repeated at 160-176 and 192-209): one row per span; the matched
substring is `Record.Seq.Seq[loc[0]:loc[1]]` on strand `1` and
`Record.Seq.SubSeq(loc[0]+1, loc[1]).RevCom().Seq` on strand `-1`. -/
def formatLocationInfo (patterns : List (String × String)) (li : LocationInfo) : List OutRow :=
  li.locations.map (fun loc =>
    { seqID := li.record.id
      patternName := li.patternName
      patternRaw := (patterns.lookup li.patternName).getD ""
      strand := li.strand
      start := loc.1 + 1
      endPos := loc.2
      matched := if li.strand = 1 then goSlice li.record.seq loc.1 loc.2
                 else revcom (subSeq li.record.seq (loc.1 + 1) loc.2) })

/-- All rows printed when one chunk's `Data` is flushed by the receiver. -/
def flushChunkRows (patterns : List (String × String)) (data : List LocationInfo) : List OutRow :=
  data.flatMap (formatLocationInfo patterns)

/-- The rows a chunk of `records` contributes to the output once flushed:
worker collection followed by flush-time formatting. -/
def workerChunkRows (find : String → List Char → List (Nat × Nat)) (pats : List String)
    (onlyPositiveStrand : Bool) (patterns : List (String × String))
    (records : List FastaRecord) : List OutRow :=
  flushChunkRows patterns (workerLocations find pats onlyPositiveStrand records)

/-- Result of the pattern-preparation block (locate.go lines 76-120):
`patterns` maps pattern name to raw pattern bytes, `regexps` maps pattern
name to the regular-expression source string handed to `regexp.Compile`
(compilation failure aborts the run via `checkError`). -/
structure PatternPrep where
  patterns : List (String × String)
  regexps : List (String × String)
deriving DecidableEq

/-- The pattern-preparation block (locate.go lines 76-120). `fileRecords`
is `some` of the name-to-sequence records read from the pattern file when
`--pattern-file` is non-empty, `none` otherwise; `patternList` is the
`--pattern` flag value; `deg2re` stands for the external
`Degenerate2Regexp` expansion. The file branch ignores `patternList`
entirely; the list branch keys both maps by the pattern text itself. -/
def preparePatterns (patternList : List String) (fileRecords : Option (List (String × String)))
    (degenerate ignoreCase : Bool) (deg2re : String → String) : PatternPrep :=
  match fileRecords with
  | some recs =>
      { patterns := recs.map (fun nr => (nr.1, nr.2))
        regexps := recs.map (fun nr =>
          (nr.1, (if ignoreCase then "(?i)" else "") ++
            (if degenerate then deg2re nr.2 else nr.2))) }
  | none =>
      { patterns := patternList.map (fun p => (p, p))
        regexps := patternList.map (fun p =>
          (p, (if ignoreCase then "(?i)" else "") ++
            (if degenerate then deg2re p else p))) }

/-- Matcher instrument: `FindAllSubmatchIndex` restricted to a literal,
non-empty pattern — successive leftmost non-overlapping occurrences,
scanning from offset `i` with enough fuel to cover the sequence. -/
def litFindAux (pat s : List Char) : Nat → Nat → List (Nat × Nat)
  | 0, _ => []
  | fuel + 1, i =>
    if pat.length = 0 then []
    else if i + pat.length ≤ s.length then
      if (s.drop i).take pat.length = pat then
        (i, i + pat.length) :: litFindAux pat s fuel (i + pat.length)
      else litFindAux pat s fuel (i + 1)
    else []

/-- Literal-pattern matcher: all leftmost non-overlapping occurrences of
the literal `pat` with their zero-based half-open spans. -/
def litFind (pat : String) (s : List Char) : List (Nat × Nat) :=
  litFindAux pat.toList s (s.length + 1) 0

/-- Matcher instrument: `FindAllSubmatchIndex` for a regular expression
matching the empty string, which hits the zero-width span at every
position of the subject. -/
def emptyRegexFind (s : List Char) : List (Nat × Nat) :=
  (List.range (s.length + 1)).map (fun i => (i, i))

/-! ## Association-list lemmas -/

theorem mem_of_lookupKey {α : Type} {l : List (Nat × α)} {k : Nat} {v : α}
    (h : l.lookup k = some v) : (k, v) ∈ l := by
  induction l with
  | nil => simp [List.lookup] at h
  | cons e t ih =>
    obtain ⟨a, b⟩ := e
    rw [List.lookup] at h
    by_cases hk : k = a
    · subst hk
      simp at h
      subst h
      exact List.mem_cons_self _ _
    · have hne : (k == a) = false := by simpa using hk
      rw [hne] at h
      exact List.mem_cons_of_mem _ (ih h)

theorem lookupKey_eq_none_iff {α : Type} {l : List (Nat × α)} {k : Nat} :
    l.lookup k = none ↔ k ∉ l.map Prod.fst := by
  induction l with
  | nil => simp [List.lookup]
  | cons e t ih =>
    obtain ⟨a, b⟩ := e
    rw [List.lookup]
    by_cases hk : k = a
    · subst hk
      simp
    · have hne : (k == a) = false := by simpa using hk
      rw [hne]
      simp [ih, hk]

theorem eraseKey_map_fst {α : Type} (k : Nat) (l : List (Nat × α)) :
    (eraseKey k l).map Prod.fst = (l.map Prod.fst).erase k := by
  rw [List.erase_eq_eraseP', List.eraseP_map]
  rfl

theorem eraseKey_of_not_mem {α : Type} {k : Nat} {l : List (Nat × α)}
    (h : k ∉ l.map Prod.fst) : eraseKey k l = l := by
  refine List.eraseP_of_forall_not (fun e he hbeq => ?_)
  have : e.1 = k := by simpa using hbeq
  exact h (this ▸ List.mem_map_of_mem Prod.fst he)

/-! ## The cascade loop -/

theorem cascadeFlushAux_spec {α : Type} (fuel : Nat) :
    ∀ (i : Nat) (cs out : List (Nat × α)),
      cs.length ≤ fuel →
      (cs.map Prod.fst).Nodup →
      (∀ k ∈ cs.map Prod.fst, i ≤ k) →
      out.map Prod.fst = List.range i →
      i ≤ (cascadeFlushAux fuel i cs out).1 ∧
      (cascadeFlushAux fuel i cs out).2.2.map Prod.fst =
        List.range (cascadeFlushAux fuel i cs out).1 ∧
      ((cascadeFlushAux fuel i cs out).2.1.map Prod.fst).Nodup ∧
      (∀ k ∈ (cascadeFlushAux fuel i cs out).2.1.map Prod.fst,
        (cascadeFlushAux fuel i cs out).1 ≤ k) ∧
      (List.range i ++ cs.map Prod.fst).Perm
        (List.range (cascadeFlushAux fuel i cs out).1 ++
          (cascadeFlushAux fuel i cs out).2.1.map Prod.fst) := by
  induction fuel with
  | zero =>
    intro i cs out _ hnd hge hout
    exact ⟨Nat.le_refl _, hout, hnd, hge, List.Perm.refl _⟩
  | succ fuel ih =>
    intro i cs out hlen hnd hge hout
    cases hlk : cs.lookup i with
    | none =>
      simp only [cascadeFlushAux, hlk]
      exact ⟨Nat.le_refl _, hout, hnd, hge, List.Perm.refl _⟩
    | some v =>
      simp only [cascadeFlushAux, hlk]
      have hmem : (i, v) ∈ cs := mem_of_lookupKey hlk
      have hkey : i ∈ cs.map Prod.fst := List.mem_map_of_mem Prod.fst hmem
      have hlen' : (eraseKey i cs).length ≤ fuel := by
        have hE : (eraseKey i cs).length = cs.length - 1 :=
          List.length_eraseP_of_mem hmem (by simp)
        have : 0 < cs.length := List.length_pos_of_mem hmem
        omega
      have hkeys' : (eraseKey i cs).map Prod.fst = (cs.map Prod.fst).erase i :=
        eraseKey_map_fst i cs
      have hnd' : ((eraseKey i cs).map Prod.fst).Nodup := by
        rw [hkeys']
        exact hnd.erase i
      have hge' : ∀ k ∈ (eraseKey i cs).map Prod.fst, i + 1 ≤ k := by
        intro k hk
        rw [hkeys'] at hk
        rcases (hnd.mem_erase_iff).1 hk with ⟨hne, hmem2⟩
        have := hge k hmem2
        omega
      have hout' : (out ++ [(i, v)]).map Prod.fst = List.range (i + 1) := by
        simp [hout, List.range_succ]
      obtain ⟨h1, h2, h3, h4, h5⟩ :=
        ih (i + 1) (eraseKey i cs) (out ++ [(i, v)]) hlen' hnd' hge' hout'
      refine ⟨by omega, h2, h3, h4, ?_⟩
      refine List.Perm.trans ?_ h5
      have hp1 : (cs.map Prod.fst).Perm (i :: (cs.map Prod.fst).erase i) :=
        List.perm_cons_erase hkey
      have hp2 := List.Perm.append_left (List.range i) hp1
      rw [List.range_succ, hkeys', List.append_assoc]
      exact hp2

theorem cascadeFlush_spec {α : Type} (i : Nat) (cs out : List (Nat × α))
    (hnd : (cs.map Prod.fst).Nodup)
    (hge : ∀ k ∈ cs.map Prod.fst, i ≤ k)
    (hout : out.map Prod.fst = List.range i) :
    i ≤ (cascadeFlush i cs out).1 ∧
    (cascadeFlush i cs out).2.2.map Prod.fst = List.range (cascadeFlush i cs out).1 ∧
    ((cascadeFlush i cs out).2.1.map Prod.fst).Nodup ∧
    (∀ k ∈ (cascadeFlush i cs out).2.1.map Prod.fst, (cascadeFlush i cs out).1 ≤ k) ∧
    (List.range i ++ cs.map Prod.fst).Perm
      (List.range (cascadeFlush i cs out).1 ++ (cascadeFlush i cs out).2.1.map Prod.fst) :=
  cascadeFlushAux_spec cs.length i cs out (Nat.le_refl _) hnd hge hout

/-! ## The reception loop invariant -/

theorem recvStep_inv {α : Type} {st : RecvState α} {seen : List Nat} {c : Nat × α}
    (hinv : RecvInv st seen) (hnew : c.1 ∉ seen) :
    RecvInv (recvStep st c) (seen ++ [c.1]) := by
  obtain ⟨hout, hnd, hge, hperm⟩ := hinv
  have hnotmem : c.1 ∉ List.range st.id ++ st.chunks.map Prod.fst :=
    fun h => hnew (hperm.mem_iff.2 h)
  by_cases hc : c.1 = st.id
  · simp only [recvStep, if_pos hc]
    refine ⟨?_, hnd, ?_, ?_⟩
    · simp [hout, hc, List.range_succ]
    · show ∀ k ∈ st.chunks.map Prod.fst, st.id + 1 ≤ k
      intro k hk
      have h1 := hge k hk
      have h2 : k ∈ seen := hperm.mem_iff.2 (List.mem_append_right _ hk)
      have h3 : k ≠ c.1 := fun h => hnew (h ▸ h2)
      omega
    · show (seen ++ [c.1]).Perm (List.range (st.id + 1) ++ st.chunks.map Prod.fst)
      have hp1 : (seen ++ [c.1]).Perm
          ((List.range st.id ++ st.chunks.map Prod.fst) ++ [c.1]) :=
        List.Perm.append_right [c.1] hperm
      refine hp1.trans ?_
      rw [List.range_succ, hc, List.append_assoc, List.append_assoc]
      exact List.Perm.append_left _ (List.perm_append_comm)
  · simp only [recvStep, if_neg hc]
    obtain ⟨h1, h2, h3, h4, h5⟩ := cascadeFlush_spec st.id st.chunks st.out hnd hge hout
    have hnotmem2 : c.1 ∉ List.range (cascadeFlush st.id st.chunks st.out).1 ++
        (cascadeFlush st.id st.chunks st.out).2.1.map Prod.fst :=
      fun h => hnotmem (h5.mem_iff.2 h)
    have hc1 : c.1 ∉ List.range (cascadeFlush st.id st.chunks st.out).1 :=
      fun h => hnotmem2 (List.mem_append_left _ h)
    have hc2 : c.1 ∉ (cascadeFlush st.id st.chunks st.out).2.1.map Prod.fst :=
      fun h => hnotmem2 (List.mem_append_right _ h)
    have hins : (insertKey c.1 c.2 (cascadeFlush st.id st.chunks st.out).2.1).map Prod.fst =
        c.1 :: (cascadeFlush st.id st.chunks st.out).2.1.map Prod.fst := by
      rw [insertKey, eraseKey_of_not_mem hc2]
      rfl
    refine ⟨h2, ?_, ?_, ?_⟩
    · rw [hins]
      exact List.Nodup.cons hc2 h3
    · show ∀ k ∈ (insertKey c.1 c.2 (cascadeFlush st.id st.chunks st.out).2.1).map Prod.fst,
        (cascadeFlush st.id st.chunks st.out).1 ≤ k
      rw [hins]
      intro k hk
      rcases List.mem_cons.1 hk with h | h
      · subst h
        have := List.mem_range.not.1 hc1
        omega
      · exact h4 k h
    · rw [hins]
      have hp1 : (seen ++ [c.1]).Perm
          ((List.range st.id ++ st.chunks.map Prod.fst) ++ [c.1]) :=
        List.Perm.append_right [c.1] hperm
      refine hp1.trans ?_
      have hp2 : ((List.range st.id ++ st.chunks.map Prod.fst) ++ [c.1]).Perm
          ((List.range (cascadeFlush st.id st.chunks st.out).1 ++
            (cascadeFlush st.id st.chunks st.out).2.1.map Prod.fst) ++ [c.1]) :=
        List.Perm.append_right [c.1] h5
      refine hp2.trans ?_
      rw [List.append_assoc]
      exact List.Perm.append_left _ (List.perm_append_comm)

theorem foldl_recvStep_inv {α : Type} (arr : List (Nat × α)) :
    ∀ (st : RecvState α) (seen : List Nat),
      RecvInv st seen → (seen ++ arr.map Prod.fst).Nodup →
      RecvInv (arr.foldl recvStep st) (seen ++ arr.map Prod.fst) := by
  induction arr with
  | nil =>
    intro st seen hinv _
    have h0 : seen ++ ([] : List (Nat × α)).map Prod.fst = seen := by simp
    rw [h0]
    exact hinv
  | cons c rest ih =>
    intro st seen hinv hnd
    have hsplit : seen ++ ((c :: rest).map Prod.fst) = (seen ++ [c.1]) ++ rest.map Prod.fst := by
      simp
    have hnew : c.1 ∉ seen := by
      intro h
      have hd := List.disjoint_of_nodup_append (by rw [List.map_cons] at hnd; exact hnd)
      exact hd h (List.mem_cons_self _ _)
    have hstep := recvStep_inv hinv hnew
    have hnd' : ((seen ++ [c.1]) ++ rest.map Prod.fst).Nodup := by
      rw [← hsplit]
      exact hnd
    have hres := ih (recvStep st c) (seen ++ [c.1]) hstep hnd'
    rw [hsplit]
    exact hres

theorem recvInit_inv {α : Type} : RecvInv (recvInit : RecvState α) [] := by
  refine ⟨rfl, List.nodup_nil, ?_, List.Perm.refl _⟩
  intro k hk
  simp [recvInit] at hk

/-! ## The final drain -/

theorem filterMap_lookup_map_fst {α : Type} (cs : List (Nat × α)) :
    ∀ ks : List Nat, (∀ k ∈ ks, k ∈ cs.map Prod.fst) →
      (ks.filterMap (fun k => (cs.lookup k).map (fun v => (k, v)))).map Prod.fst = ks := by
  intro ks
  induction ks with
  | nil => intro _; rfl
  | cons k t ih =>
    intro hall
    have hk : k ∈ cs.map Prod.fst := hall k (List.mem_cons_self _ _)
    have hlk : cs.lookup k ≠ none := fun h => (lookupKey_eq_none_iff.1 h) hk
    cases hv : cs.lookup k with
    | none => exact absurd hv hlk
    | some v =>
      have ht := ih (fun x hx => hall x (List.mem_cons_of_mem _ hx))
      simp [List.filterMap_cons, hv, ht]

theorem drain_of_inv {α : Type} (st : RecvState α) (N : Nat) (seen : List Nat)
    (hinv : RecvInv st seen) (htot : seen.Perm (List.range N)) :
    (drainState st).map Prod.fst = List.range N := by
  obtain ⟨hout, hnd, hge, hperm⟩ := hinv
  have hpr : (List.range N).Perm (List.range st.id ++ st.chunks.map Prod.fst) :=
    htot.symm.trans hperm
  have hidN : st.id ≤ N := by
    by_contra hlt
    have h1 : N ∈ List.range st.id := List.mem_range.2 (by omega)
    have h2 : N ∈ List.range N := hpr.mem_iff.2 (List.mem_append_left _ h1)
    exact absurd (List.mem_range.1 h2) (by omega)
  have hsplitr : List.range N = List.range st.id ++ List.range' st.id (N - st.id) := by
    obtain ⟨m, rfl⟩ : ∃ m, N = st.id + m := ⟨N - st.id, by omega⟩
    rw [Nat.add_sub_cancel_left, List.range_eq_range', List.range_eq_range']
    have happ := List.range'_append_1 0 st.id m
    rw [Nat.zero_add] at happ
    rw [Nat.add_comm st.id m]
    exact happ.symm
  have hkp : (st.chunks.map Prod.fst).Perm (List.range' st.id (N - st.id)) := by
    have hpr2 : (List.range st.id ++ List.range' st.id (N - st.id)).Perm
        (List.range st.id ++ st.chunks.map Prod.fst) := by
      rw [← hsplitr]
      exact hpr
    exact ((List.perm_append_left_iff _).1 hpr2).symm
  have hsorteq : sortLocationChunkMapID st.chunks = List.range' st.id (N - st.id) := by
    haveI : IsAntisymm Nat (· ≤ ·) := ⟨fun _ _ h1 h2 => Nat.le_antisymm h1 h2⟩
    refine List.eq_of_perm_of_sorted (r := (· ≤ ·)) ?_ ?_ ?_
    · exact (List.perm_insertionSort _ _).trans hkp
    · exact List.sorted_insertionSort _ _
    · exact List.pairwise_le_range' st.id (N - st.id)
  have hmemkeys : ∀ k ∈ sortLocationChunkMapID st.chunks, k ∈ st.chunks.map Prod.fst := by
    intro k hk
    exact (List.perm_insertionSort (· ≤ ·) (st.chunks.map Prod.fst)).subset hk
  have hfm := filterMap_lookup_map_fst st.chunks (sortLocationChunkMapID st.chunks) hmemkeys
  show (st.out ++ _).map Prod.fst = List.range N
  rw [List.map_append, hout, hfm, hsorteq, hsplitr]

/-! ## Claim C1: ordering invariant of the reorder buffer -/

/-- C1: for N input batches numbered 0..N-1, and for every permutation in
which result chunks arrive on the results channel, the sequence of chunk
sequence numbers flushed to the output sink — the flushes during reception
together with the final sorted drain after the channel closes — is exactly
`0, 1, ..., N-1`, with no gaps and no repeats. -/
theorem receiver_flushes_in_order {α : Type} (N : Nat) (arr : List (Nat × α))
    (h : (arr.map Prod.fst).Perm (List.range N)) :
    (receiverRun arr).map Prod.fst = List.range N := by
  have hnd : (arr.map Prod.fst).Nodup := h.symm.nodup (List.nodup_range N)
  have hinv := foldl_recvStep_inv arr recvInit [] recvInit_inv (by simpa using hnd)
  rw [List.nil_append] at hinv
  exact drain_of_inv _ N _ hinv h

/-- Witness for C1: the arrival order 2, 0, 1 of three batches is a
permutation of 0..2 and the flush trace is `[0, 1, 2]`. -/
theorem receiver_flushes_in_order_witness :
    ((([(2, 0), (0, 0), (1, 0)] : List (Nat × Nat)).map Prod.fst).Perm (List.range 3)) ∧
    (receiverRun ([(2, 0), (0, 0), (1, 0)] : List (Nat × Nat))).map Prod.fst = List.range 3 :=
  ⟨by decide, receiver_flushes_in_order 3 _ (by decide)⟩

/-! ## Claim C2: cascade behaviour on an exact match -/

/-- C2 counterexample: with batches [0, 1, 2] arriving in the order
2, 0, 1, the flush trace *during reception* is `[0, 1]` and batch 2 is
still buffered when the channel closes, so batch 2 is not flushed together
with batch 1 at the moment batch 1 is received; it is flushed only by the
final sorted drain (after which the full trace is `[0, 1, 2]`). -/
theorem cascade_on_match_counterexample :
    (([(2, 0), (0, 0), (1, 0)] : List (Nat × Nat)).foldl recvStep recvInit).out.map Prod.fst
      = [0, 1] ∧
    (([(2, 0), (0, 0), (1, 0)] : List (Nat × Nat)).foldl recvStep recvInit).chunks.map Prod.fst
      = [2] ∧
    (receiverRun ([(2, 0), (0, 0), (1, 0)] : List (Nat × Nat))).map Prod.fst = [0, 1, 2] := by
  decide

/-- C2 amended: when a result chunk `c` with `c.ID == id` (the next
expected ID) is received, the receiver flushes `c` and increments `id`
but runs no cascade — the buffered map is left untouched; the cascade runs
only in the mismatch branch, and chunks still buffered when the channel
closes are flushed by the final sorted drain (in the 2, 0, 1 scenario the
total flush order is still `[0, 1, 2]`, with batch 2 drained at close). -/
theorem match_branch_no_cascade {α : Type} (st : RecvState α) (c : Nat × α)
    (h : c.1 = st.id) :
    recvStep st c = ⟨st.id + 1, st.chunks, st.out ++ [c]⟩ ∧
    (receiverRun ([(2, 0), (0, 0), (1, 0)] : List (Nat × Nat))).map Prod.fst = [0, 1, 2] :=
  ⟨by simp only [recvStep, if_pos h], by decide⟩

/-- Witness for C2 amended: a matching chunk is flushed with the buffered
entry for ID 2 left in place. -/
theorem match_branch_no_cascade_witness :
    recvStep (⟨1, [(2, 7)], [(0, 5)]⟩ : RecvState Nat) (1, 9)
      = ⟨2, [(2, 7)], [(0, 5), (1, 9)]⟩ ∧
    (receiverRun ([(2, 0), (0, 0), (1, 0)] : List (Nat × Nat))).map Prod.fst = [0, 1, 2] :=
  match_branch_no_cascade (⟨1, [(2, 7)], [(0, 5)]⟩ : RecvState Nat) (1, 9) rfl

/-! ## Claim C6: pending-map invariant -/

/-- C6 counterexample to "strictly greater": with batches [0, 1, 2]
arriving in the order 1, 0, 2, the buffered map holds only key 1 after the
first two arrivals; processing the third arrival (ID 2) first cascades
`nextExpected` from 1 to 2 and then inserts key 2, so key 2 enters the
pending map at a moment when `nextExpected` is already 2 — equal, not
strictly greater. -/
theorem pending_key_equal_counterexample :
    (([(1, 0), (0, 0)] : List (Nat × Nat)).foldl recvStep recvInit).chunks.map Prod.fst
      = [1] ∧
    (([(1, 0), (0, 0), (2, 0)] : List (Nat × Nat)).foldl recvStep recvInit).id = 2 ∧
    (([(1, 0), (0, 0), (2, 0)] : List (Nat × Nat)).foldl recvStep recvInit).chunks.map Prod.fst
      = [2] := by
  decide

/-- C6 amended: assuming the chunk sequence numbers delivered on the
results channel are distinct, at every point during reception every key
in the pending map is at least (not necessarily strictly greater than)
`nextExpected` — in particular the buffer never stores a chunk whose
sequence number is below `nextExpected` — and an arriving chunk whose
sequence number is below `nextExpected` never occurs. -/
theorem pending_keys_ge_nextExpected {α : Type} (arr : List (Nat × α))
    (hnd : (arr.map Prod.fst).Nodup) :
    (∀ k ∈ (arr.foldl recvStep recvInit).chunks.map Prod.fst,
        (arr.foldl recvStep recvInit).id ≤ k) ∧
    (∀ (p : List (Nat × α)) (c : Nat × α) (s : List (Nat × α)), arr = p ++ c :: s →
        (p.foldl recvStep recvInit).id ≤ c.1) := by
  constructor
  · have hinv := foldl_recvStep_inv arr recvInit [] recvInit_inv (by simpa using hnd)
    exact hinv.2.2.1
  · intro p c s hsplit
    subst hsplit
    have hndp : (p.map Prod.fst).Nodup := by
      have : (p.map Prod.fst).Sublist ((p ++ c :: s).map Prod.fst) :=
        (p.sublist_append_left (c :: s)).map Prod.fst
      exact this.nodup hnd
    have hinv := foldl_recvStep_inv p recvInit [] recvInit_inv (by simpa using hndp)
    rw [List.nil_append] at hinv
    obtain ⟨hout, hndk, hge, hperm⟩ := hinv
    by_contra hlt
    have hc1 : c.1 ∈ List.range (p.foldl recvStep recvInit).id := List.mem_range.2 (by omega)
    have hcseen : c.1 ∈ p.map Prod.fst := hperm.mem_iff.2 (List.mem_append_left _ hc1)
    have : ¬ (List.Disjoint (p.map Prod.fst) ((c :: s).map Prod.fst)) :=
      fun hd => hd hcseen (List.mem_cons_self _ _)
    rw [List.map_append] at hnd
    exact this (List.disjoint_of_nodup_append hnd)

/-- Witness for C6 amended: the arrival sequence 1, 0, 2 has distinct IDs;
afterwards every pending key is at least `nextExpected`, and the third
arrival's ID 2 is at least the `nextExpected` in force when it arrived. -/
theorem pending_keys_ge_nextExpected_witness :
    (∀ k ∈ (([(1, 0), (0, 0), (2, 0)] : List (Nat × Nat)).foldl recvStep
        recvInit).chunks.map Prod.fst,
      (([(1, 0), (0, 0), (2, 0)] : List (Nat × Nat)).foldl recvStep recvInit).id ≤ k) ∧
    (([(1, 0), (0, 0)] : List (Nat × Nat)).foldl recvStep recvInit).id ≤ 2 :=
  ⟨(pending_keys_ge_nextExpected ([(1, 0), (0, 0), (2, 0)] : List (Nat × Nat)) (by decide)).1,
   (pending_keys_ge_nextExpected ([(1, 0), (0, 0), (2, 0)] : List (Nat × Nat)) (by decide)).2
     [(1, 0), (0, 0)] (2, 0) [] rfl⟩

/-! ## Worker structure lemmas -/

theorem workerStep_eq {find : String → List Char → List (Nat × Nat)} {os : Bool}
    {record : FastaRecord} (acc : List LocationInfo) (p : String) :
    workerStep find os record acc p = acc ++ patBlock find os record p := by
  simp only [workerStep, patBlock]
  by_cases h1 : (find p record.seq).length > 0 <;>
    by_cases h2 : os <;>
      by_cases h3 : (find p (revcom record.seq)).length > 0 <;>
        simp [h1, h2, h3]

theorem foldl_workerStep_eq {find : String → List Char → List (Nat × Nat)} {os : Bool}
    {record : FastaRecord} (pats : List String) :
    ∀ acc : List LocationInfo,
      pats.foldl (workerStep find os record) acc = acc ++ pats.flatMap (patBlock find os record) := by
  induction pats with
  | nil => intro acc; simp
  | cons p t ih =>
    intro acc
    rw [List.foldl_cons, workerStep_eq, ih, List.flatMap_cons, List.append_assoc]

theorem workerLocations_eq (find : String → List Char → List (Nat × Nat)) (pats : List String)
    (os : Bool) (records : List FastaRecord) :
    workerLocations find pats os records =
      records.flatMap (fun record => pats.flatMap (patBlock find os record)) := by
  unfold workerLocations
  have haux : ∀ (rs : List FastaRecord) (acc : List LocationInfo),
      rs.foldl (fun acc record => pats.foldl (workerStep find os record) acc) acc =
        acc ++ rs.flatMap (fun record => pats.flatMap (patBlock find os record)) := by
    intro rs
    induction rs with
    | nil => intro acc; simp
    | cons r t ih =>
      intro acc
      rw [List.foldl_cons, foldl_workerStep_eq, ih, List.flatMap_cons, List.append_assoc]
  rw [haux]
  rfl

theorem revcom_length (s : List Char) : (revcom s).length = s.length := by
  simp [revcom]

theorem mem_patBlock {find : String → List Char → List (Nat × Nat)} {os : Bool}
    {record : FastaRecord} {p : String} {li : LocationInfo}
    (h : li ∈ patBlock find os record p) :
    li.record = record ∧ li.patternName = p ∧
    ((li.strand = 1 ∧ li.locations = find p record.seq ∧ (find p record.seq).length > 0) ∨
     (li.strand = -1 ∧ os = false ∧ (find p (revcom record.seq)).length > 0 ∧
       li.locations = (find p (revcom record.seq)).map
         (fun loc => ((revcom record.seq).length - loc.2, (revcom record.seq).length - loc.1)))) := by
  unfold patBlock at h
  rcases List.mem_append.1 h with hf | hr2
  · by_cases h1 : (find p record.seq).length > 0
    · rw [if_pos h1] at hf
      have he := List.mem_singleton.1 hf
      subst he
      exact ⟨rfl, rfl, Or.inl ⟨rfl, rfl, h1⟩⟩
    · rw [if_neg h1] at hf
      cases hf
  · cases os with
    | true =>
      rw [if_pos rfl] at hr2
      cases hr2
    | false =>
      rw [if_neg (by simp)] at hr2
      by_cases h3 : (find p (revcom record.seq)).length > 0
      · rw [if_pos h3] at hr2
        have he := List.mem_singleton.1 hr2
        subst he
        exact ⟨rfl, rfl, Or.inr ⟨rfl, rfl, h3, rfl⟩⟩
      · rw [if_neg h3] at hr2
        cases hr2

theorem litFindAux_wf (pat s : List Char) :
    ∀ (fuel i : Nat) (ab : Nat × Nat), ab ∈ litFindAux pat s fuel i →
      ab.1 < ab.2 ∧ ab.2 ≤ s.length := by
  intro fuel
  induction fuel with
  | zero =>
    intro i ab h
    simp [litFindAux] at h
  | succ fuel ih =>
    intro i ab h
    rw [litFindAux] at h
    by_cases h0 : pat.length = 0
    · rw [if_pos h0] at h
      cases h
    · rw [if_neg h0] at h
      by_cases h1 : i + pat.length ≤ s.length
      · rw [if_pos h1] at h
        by_cases h2 : (s.drop i).take pat.length = pat
        · rw [if_pos h2] at h
          rcases List.mem_cons.1 h with he | hm
          · subst he
            constructor
            · show i < i + pat.length
              omega
            · exact h1
          · exact ih _ ab hm
        · rw [if_neg h2] at h
          exact ih _ ab h
      · rw [if_neg h1] at h
        cases h

theorem litFind_wf (p : String) (s : List Char) (ab : Nat × Nat)
    (h : ab ∈ litFind p s) : ab.1 < ab.2 ∧ ab.2 ≤ s.length :=
  litFindAux_wf p.toList s (s.length + 1) 0 ab h

/-! ## Claim C8: intra-record match ordering -/

/-- C8: the result list a worker produces is, structurally, the records in
chunk order, within one record the patterns in pattern-set iteration
order, and within one (record, pattern) pair the forward-strand entry
(strand 1) followed by the reverse-strand entry (strand -1), each present
exactly when its strand's search hits — so all forward matches of a
pattern precede all reverse matches of that same pattern. -/
theorem worker_match_order (find : String → List Char → List (Nat × Nat)) (pats : List String)
    (os : Bool) (records : List FastaRecord) :
    workerLocations find pats os records =
      records.flatMap (fun record => pats.flatMap (fun p =>
        (if (find p record.seq).length > 0 then
          [⟨record, p, 1, find p record.seq⟩] else []) ++
        (if os then []
         else if (find p (revcom record.seq)).length > 0 then
          [⟨record, p, -1, (find p (revcom record.seq)).map
            (fun loc => ((revcom record.seq).length - loc.2,
              (revcom record.seq).length - loc.1))⟩]
         else []))) := by
  rw [workerLocations_eq]
  rfl

/-! ## Claim C3: no loss -/

/-- C3 counterexample: the record `r1 = GGG` appears in the input, but
pattern `AC` matches it on neither strand, so the worker emits no
`LocationInfo` for it and the flushed output holds no row at all for this
record — it is not represented in the output. -/
theorem no_match_record_unrepresented :
    workerLocations litFind ["AC"] false [⟨"r1", "GGG".toList⟩] = [] ∧
    workerChunkRows litFind ["AC"] false [("AC", "AC")] [⟨"r1", "GGG".toList⟩] = [] := by
  decide

/-- C3 amended: a record of the input is represented in the worker's
result exactly when some pattern hits it on a searched strand: if some
pattern's forward search hits, an entry for the record appears; if no
pattern hits on either strand, no entry for the record appears, so the
record contributes no output rows at all. -/
theorem record_representation (find : String → List Char → List (Nat × Nat))
    (pats : List String) (os : Bool) (records : List FastaRecord) (r : FastaRecord)
    (hr : r ∈ records) :
    ((∃ p ∈ pats, (find p r.seq).length > 0 ∨
        (os = false ∧ (find p (revcom r.seq)).length > 0)) →
      ∃ li ∈ workerLocations find pats os records, li.record = r) ∧
    ((∀ p ∈ pats, find p r.seq = [] ∧ find p (revcom r.seq) = []) →
      ∀ li ∈ workerLocations find pats os records, li.record ≠ r) := by
  constructor
  · rintro ⟨p, hp, hfind | ⟨hos, hrev⟩⟩
    · refine ⟨⟨r, p, 1, find p r.seq⟩, ?_, rfl⟩
      rw [workerLocations_eq]
      refine List.mem_flatMap.2 ⟨r, hr, List.mem_flatMap.2 ⟨p, hp, ?_⟩⟩
      unfold patBlock
      apply List.mem_append_left
      rw [if_pos hfind]
      exact List.mem_singleton.2 rfl
    · refine ⟨⟨r, p, -1, (find p (revcom r.seq)).map
        (fun loc => ((revcom r.seq).length - loc.2, (revcom r.seq).length - loc.1))⟩, ?_, rfl⟩
      rw [workerLocations_eq]
      refine List.mem_flatMap.2 ⟨r, hr, List.mem_flatMap.2 ⟨p, hp, ?_⟩⟩
      unfold patBlock
      apply List.mem_append_right
      rw [hos, if_neg (by simp), if_pos hrev]
      exact List.mem_singleton.2 rfl
  · intro hall li hli hrec
    rw [workerLocations_eq] at hli
    obtain ⟨r2, hr2, hli2⟩ := List.mem_flatMap.1 hli
    obtain ⟨p, hp, hli3⟩ := List.mem_flatMap.1 hli2
    obtain ⟨hrec2, _, hcase⟩ := mem_patBlock hli3
    have hr2r : r2 = r := by rw [← hrec2, hrec]
    subst hr2r
    rcases hcase with ⟨_, _, hlen⟩ | ⟨_, _, hlen, _⟩
    · rw [(hall p hp).1] at hlen
      simp at hlen
    · rw [(hall p hp).2] at hlen
      simp at hlen

/-- Witness for C3 amended: record `r1 = ACG` is hit by pattern `AC`
forward, so an entry with that record appears in the worker's result. -/
theorem record_representation_witness :
    ∃ li ∈ workerLocations litFind ["AC"] false [⟨"r1", "ACG".toList⟩],
      li.record = (⟨"r1", "ACG".toList⟩ : FastaRecord) :=
  (record_representation litFind ["AC"] false [⟨"r1", "ACG".toList⟩]
    ⟨"r1", "ACG".toList⟩ (by decide)).1 (by decide)

/-! ## Claim C4: strand coordinate correctness -/

/-- C4: for a record of sequence length L, a forward-strand match of
zero-based half-open span [a, b) is reported as a row with strand 1,
start = a+1 and end = b; a match of span [a, b) found against the reverse
complement is translated to forward coordinates [L-b, L-a) and reported
as a row with strand -1, start = L-b+1 and end = L-a. -/
theorem strand_coordinate_report (find : String → List Char → List (Nat × Nat))
    (pats : List String) (os : Bool) (patterns : List (String × String))
    (records : List FastaRecord) (r : FastaRecord) (p : String) (a b : Nat)
    (hr : r ∈ records) (hp : p ∈ pats) :
    ((a, b) ∈ find p r.seq →
      ∃ row ∈ workerChunkRows find pats os patterns records,
        row.seqID = r.id ∧ row.patternName = p ∧ row.strand = 1 ∧
          row.start = a + 1 ∧ row.endPos = b) ∧
    (os = false → (a, b) ∈ find p (revcom r.seq) →
      ∃ row ∈ workerChunkRows find pats os patterns records,
        row.seqID = r.id ∧ row.patternName = p ∧ row.strand = -1 ∧
          row.start = r.seq.length - b + 1 ∧ row.endPos = r.seq.length - a) := by
  constructor
  · intro hab
    have hlen : (find p r.seq).length > 0 := List.length_pos_of_mem hab
    have hli : (⟨r, p, 1, find p r.seq⟩ : LocationInfo) ∈ workerLocations find pats os records := by
      rw [workerLocations_eq]
      refine List.mem_flatMap.2 ⟨r, hr, List.mem_flatMap.2 ⟨p, hp, ?_⟩⟩
      unfold patBlock
      apply List.mem_append_left
      rw [if_pos hlen]
      exact List.mem_singleton.2 rfl
    refine ⟨_, List.mem_flatMap.2 ⟨_, hli, List.mem_map_of_mem _ hab⟩, rfl, rfl, rfl, rfl, rfl⟩
  · intro hos hab
    have hlen : (find p (revcom r.seq)).length > 0 := List.length_pos_of_mem hab
    have hli : (⟨r, p, -1, (find p (revcom r.seq)).map
        (fun loc => ((revcom r.seq).length - loc.2, (revcom r.seq).length - loc.1))⟩ :
          LocationInfo) ∈ workerLocations find pats os records := by
      rw [workerLocations_eq]
      refine List.mem_flatMap.2 ⟨r, hr, List.mem_flatMap.2 ⟨p, hp, ?_⟩⟩
      unfold patBlock
      apply List.mem_append_right
      rw [hos, if_neg (by simp), if_pos hlen]
      exact List.mem_singleton.2 rfl
    have hloc : ((revcom r.seq).length - b, (revcom r.seq).length - a) ∈
        (find p (revcom r.seq)).map
          (fun loc => ((revcom r.seq).length - loc.2, (revcom r.seq).length - loc.1)) :=
      List.mem_map_of_mem _ hab
    refine ⟨_, List.mem_flatMap.2 ⟨_, hli, List.mem_map_of_mem _ hloc⟩, rfl, rfl, rfl, ?_, ?_⟩
    · show (revcom r.seq).length - b + 1 = r.seq.length - b + 1
      rw [revcom_length]
    · show (revcom r.seq).length - a = r.seq.length - a
      rw [revcom_length]

/-- Witness for C4: record `r1 = AACG` and pattern `CG`; the forward span
[2, 4) is reported as start 3, end 4, strand 1; the reverse complement of
`AACG` is `CGTT`, whose span [0, 2) is reported as start 3, end 4,
strand -1. -/
theorem strand_coordinate_report_witness :
    (∃ row ∈ workerChunkRows litFind ["CG"] false [("CG", "CG")] [⟨"r1", "AACG".toList⟩],
      row.seqID = "r1" ∧ row.patternName = "CG" ∧ row.strand = 1 ∧
        row.start = 3 ∧ row.endPos = 4) ∧
    (∃ row ∈ workerChunkRows litFind ["CG"] false [("CG", "CG")] [⟨"r1", "AACG".toList⟩],
      row.seqID = "r1" ∧ row.patternName = "CG" ∧ row.strand = -1 ∧
        row.start = 3 ∧ row.endPos = 4) :=
  ⟨(strand_coordinate_report litFind ["CG"] false [("CG", "CG")] [⟨"r1", "AACG".toList⟩]
      ⟨"r1", "AACG".toList⟩ "CG" 2 4 (by decide) (by decide)).1 (by decide),
   (strand_coordinate_report litFind ["CG"] false [("CG", "CG")] [⟨"r1", "AACG".toList⟩]
      ⟨"r1", "AACG".toList⟩ "CG" 0 2 (by decide) (by decide)).2 rfl (by decide)⟩

/-! ## Claim C7: coordinate well-formedness of output rows -/

/-- C7 counterexample: a regular expression that matches the empty string
produces zero-width spans; the row printed for the span [0, 0) of record
`r1 = A` has start 1 and end 0, violating start ≤ end. -/
theorem empty_span_row_counterexample :
    ∃ row ∈ workerChunkRows (fun _ s => emptyRegexFind s) ["P"] true [("P", "")]
        [⟨"r1", "A".toList⟩],
      ¬ (row.start ≤ row.endPos) := by
  decide

/-- C7 amended: provided every span the matcher reports is non-empty and
within bounds (`a < b ≤ length`, as regexp guarantees except for
zero-width matches), every printed row satisfies 1 ≤ start ≤ end; a
zero-width span instead yields start = end + 1. -/
theorem rows_wellformed (find : String → List Char → List (Nat × Nat))
    (pats : List String) (os : Bool) (patterns : List (String × String))
    (records : List FastaRecord)
    (hwf : ∀ (p : String) (s : List Char) (ab : Nat × Nat), ab ∈ find p s →
      ab.1 < ab.2 ∧ ab.2 ≤ s.length) :
    ∀ row ∈ workerChunkRows find pats os patterns records,
      1 ≤ row.start ∧ row.start ≤ row.endPos := by
  intro row hrow
  obtain ⟨li, hli, hrowf⟩ := List.mem_flatMap.1 hrow
  obtain ⟨loc, hloc, hfmt⟩ := List.mem_map.1 hrowf
  subst hfmt
  rw [workerLocations_eq] at hli
  obtain ⟨r, _, hli2⟩ := List.mem_flatMap.1 hli
  obtain ⟨p, _, hli3⟩ := List.mem_flatMap.1 hli2
  obtain ⟨_, _, hcase⟩ := mem_patBlock hli3
  rcases hcase with ⟨_, hlocs, _⟩ | ⟨_, _, _, hlocs⟩
  · rw [hlocs] at hloc
    have hb := hwf p r.seq loc hloc
    show 1 ≤ loc.1 + 1 ∧ loc.1 + 1 ≤ loc.2
    omega
  · rw [hlocs] at hloc
    obtain ⟨ab, hab, habeq⟩ := List.mem_map.1 hloc
    have hb := hwf p (revcom r.seq) ab hab
    subst habeq
    show 1 ≤ (revcom r.seq).length - ab.2 + 1 ∧
      (revcom r.seq).length - ab.2 + 1 ≤ (revcom r.seq).length - ab.1
    omega

/-- Witness for C7 amended: the literal matcher only reports non-empty
in-bounds spans, and the forward row printed for record `r1 = AACG` under
pattern `CG` — seqID r1, strand 1, start 3, end 4, matched `CG` — is
well-formed. -/
theorem rows_wellformed_witness :
    1 ≤ (⟨"r1", "CG", "CG", 1, 3, 4, "CG".toList⟩ : OutRow).start ∧
    (⟨"r1", "CG", "CG", 1, 3, 4, "CG".toList⟩ : OutRow).start ≤
      (⟨"r1", "CG", "CG", 1, 3, 4, "CG".toList⟩ : OutRow).endPos :=
  rows_wellformed litFind ["CG"] false [("CG", "CG")] [⟨"r1", "AACG".toList⟩] litFind_wf
    ⟨"r1", "CG", "CG", 1, 3, 4, "CG".toList⟩ (by decide)

/-! ## Claim C5: output determinism across parallelism degree -/

/-- C5 (code bug): the worker iterates the `regexps` map with a Go `range`
loop, whose iteration order is randomized per loop execution, and the
output row order within one record follows that iteration order; with
record `r1 = ACG` and patterns `AC` and `CG`, the two possible iteration
orders produce different output row sequences, so two runs on the same
input (whatever the worker count) need not produce identical output. -/
theorem pattern_order_changes_output :
    workerChunkRows litFind ["AC", "CG"] true [("AC", "AC"), ("CG", "CG")]
        [⟨"r1", "ACG".toList⟩] ≠
    workerChunkRows litFind ["CG", "AC"] true [("AC", "AC"), ("CG", "CG")]
        [⟨"r1", "ACG".toList⟩] := by
  decide

/-! ## Claim C9: reverse-strand matched-substring equivalence -/

/-- C9: for every sequence S of length L and 0 ≤ a ≤ b ≤ L, the substring
printed at flush time for a reverse-strand match whose translated forward
span is [L-b, L-a) — `SubSeq(L-b+1, L-a).RevCom()`, the reverse complement
of the forward sequence sliced at the translated span — equals the slice
[a, b) of the reverse complement of the whole sequence. -/
theorem revcom_slice_equiv (S : List Char) (a b : Nat) (h1 : a ≤ b) (h2 : b ≤ S.length) :
    revcom (subSeq S (S.length - b + 1) (S.length - a)) = goSlice (revcom S) a b := by
  unfold subSeq goSlice revcom
  have e0 : S.length - b + 1 - 1 = S.length - b := by omega
  rw [e0, List.map_drop, List.map_take]
  have r1 : (S.map complementBase).reverse.take b =
      ((S.map complementBase).drop ((S.map complementBase).length - b)).reverse :=
    List.take_reverse
  have r2 : ((S.map complementBase).drop ((S.map complementBase).length - b)).reverse.drop a =
      (((S.map complementBase).drop ((S.map complementBase).length - b)).take
        (((S.map complementBase).drop ((S.map complementBase).length - b)).length - a)).reverse :=
    List.drop_reverse
  rw [r1, r2]
  congr 1
  rw [List.length_drop, List.length_map, List.drop_take]
  congr 1
  omega

/-- Witness for C9: S = AACG, a = 0, b = 2: both sides are `CG`. -/
theorem revcom_slice_equiv_witness :
    revcom (subSeq "AACG".toList ("AACG".toList.length - 2 + 1) ("AACG".toList.length - 0)) =
      goSlice (revcom "AACG".toList) 0 2 :=
  revcom_slice_equiv "AACG".toList 0 2 (by decide) (by decide)

/-! ## Claim C10: pattern-source precedence -/

/-- C10: when a pattern file is supplied, the pattern set is built
exclusively from the file records; the explicitly listed patterns
contribute no entries — the result is the same whatever the explicit
list holds, and both maps are keyed exactly by the file record names. -/
theorem patternFile_overrides_list (patternList patternList2 : List String)
    (fileRecords : List (String × String)) (degenerate ignoreCase : Bool)
    (deg2re : String → String) :
    preparePatterns patternList (some fileRecords) degenerate ignoreCase deg2re =
      preparePatterns patternList2 (some fileRecords) degenerate ignoreCase deg2re ∧
    (preparePatterns patternList (some fileRecords) degenerate ignoreCase
      deg2re).patterns.map Prod.fst = fileRecords.map Prod.fst ∧
    (preparePatterns patternList (some fileRecords) degenerate ignoreCase
      deg2re).regexps.map Prod.fst = fileRecords.map Prod.fst := by
  refine ⟨rfl, ?_, ?_⟩ <;> simp [preparePatterns]

end Locate
